import Mathlib

/-!
Verification of the `mark` archival tool (src/main.rs) against its
natural-language specification.

Shallow embedding conventions:
* Byte streams are `List Nat` with every element below 256; readers are
  functions from a stream to an `Option` of a value paired with the rest of
  the stream (a failing `read_exact`, or a panicking `unwrap`, is `none`).
* Machine integers are `Nat` with explicit `% 2 ^ 32` / `% 2 ^ 64` at the
  points where Rust truncates (`as u32`, `as u8`, `to_le_bytes`).
* Strings (entry names) are modelled by their UTF-8 byte sequences, so the
  `String::from_utf8` validation performed by `FileHeaderRepr::read` is the
  identity on bytes that were produced by `String::as_bytes`.
* The Brotli codec is an external collaborator; the unpack model takes the
  decompressor as an explicit function parameter.
-/

/-- Little-endian byte encoding of `n` in `w` bytes, as `u32::to_le_bytes`
and `u64::to_le_bytes` produce (truncating at `2 ^ (8 * w)`). -/
def toLEBytes : Nat → Nat → List Nat
  | 0, _ => []
  | w + 1, n => n % 256 :: toLEBytes w (n / 256)

/-- Little-endian decoding, as `u32::from_le_bytes` / `u64::from_le_bytes`. -/
def fromLEBytes : List Nat → Nat
  | [] => 0
  | b :: bs => b + 256 * fromLEBytes bs

/-- Model of `Read::read_exact` into a buffer of `n` bytes: fails when the
stream holds fewer than `n` bytes, otherwise yields the buffer and the rest. -/
def readExact (n : Nat) (s : List Nat) : Option (List Nat × List Nat) :=
  if s.length < n then none else some (s.take n, s.drop n)

/-- Model of `enum DataCompression { None = 0, Brotli = 1 }`. -/
inductive DataCompression where
  | none
  | brotli
deriving DecidableEq

/-- The `repr(u8)` discriminant of a `DataCompression` value
(the value of `data_compression as u32` / the stored tag byte). -/
def DataCompression.tag : DataCompression → Nat
  | .none => 0
  | .brotli => 1

/-- Model of `impl TryFrom<u8> for DataCompression`. -/
def DataCompression.tryFrom (x : Nat) : Option DataCompression :=
  match x with
  | 0 => some .none
  | 1 => some .brotli
  | _ => Option.none

/-- Model of `struct ArchiveHeader { version: u32, file_count: u32 }`. -/
structure ArchiveHeader where
  version : Nat
  file_count : Nat
deriving DecidableEq

/-- Model of `ArchiveHeader::write`: an 8-byte buffer whose first four bytes
are the little-endian version and whose last four are the entry count. -/
def ArchiveHeader.writeBytes (h : ArchiveHeader) : List Nat :=
  toLEBytes 4 h.version ++ toLEBytes 4 h.file_count

/-- Model of `ArchiveHeader::read`: `read_exact` 8 bytes, decode the two
little-endian `u32` fields from `buf[0..4]` and `buf[4..8]`. -/
def ArchiveHeader.readBytes (s : List Nat) : Option (ArchiveHeader × List Nat) :=
  (readExact 8 s).map fun br =>
    (⟨fromLEBytes (br.1.take 4), fromLEBytes ((br.1.drop 4).take 4)⟩, br.2)

/-- Model of `struct FileHeader` (the 24-byte fixed part of an entry):
`mode: u32`, `data_compression_and_name_len: u32`,
`data_uncompressed_len: u64`, `data_len: u64`. -/
structure FileHeader where
  mode : Nat
  data_compression_and_name_len : Nat
  data_uncompressed_len : Nat
  data_len : Nat
deriving DecidableEq

/-- Model of `FileHeader::new`: the combined field is
`data_compression as u32 | name_len << 8` (the `u32` shift discards bits
above `2 ^ 32`). -/
def FileHeader.new (mode : Nat) (name_len : Nat) (dc : DataCompression)
    (data_uncompressed_len : Nat) (data_len : Nat) : FileHeader :=
  ⟨mode, dc.tag ||| (name_len * 256 % 2 ^ 32), data_uncompressed_len, data_len⟩

/-- Model of `FileHeader::write`: the four fields in declaration order, each
as little-endian bytes. -/
def FileHeader.writeBytes (h : FileHeader) : List Nat :=
  toLEBytes 4 h.mode ++ toLEBytes 4 h.data_compression_and_name_len ++
    toLEBytes 8 h.data_uncompressed_len ++ toLEBytes 8 h.data_len

/-- Model of `FileHeader::read`: `read_exact` 24 bytes, decode the fields
from `buf[0..4]`, `buf[4..8]`, `buf[8..16]`, `buf[16..24]`. -/
def FileHeader.readBytes (s : List Nat) : Option (FileHeader × List Nat) :=
  (readExact 24 s).map fun br =>
    (⟨fromLEBytes (br.1.take 4), fromLEBytes ((br.1.drop 4).take 4),
      fromLEBytes ((br.1.drop 8).take 8), fromLEBytes ((br.1.drop 16).take 8)⟩,
     br.2)

/-- Model of `FileHeader::data_compression`: `TryFrom<u8>` applied to the low
byte of the combined field (`self.data_compression_and_name_len as u8`).
The Rust method unwraps; the `none` case models that panic. -/
def FileHeader.data_compression (h : FileHeader) : Option DataCompression :=
  DataCompression.tryFrom (h.data_compression_and_name_len % 256)

/-- Model of `FileHeader::name_len`: the combined field shifted right by 8. -/
def FileHeader.name_len (h : FileHeader) : Nat :=
  h.data_compression_and_name_len >>> 8

/-- Model of `struct FileHeaderRepr`: the decoded form of one entry, with the
name kept as its UTF-8 byte sequence. -/
structure FileHeaderRepr where
  mode : Nat
  data_compression : DataCompression
  data_uncompressed_len : Nat
  data_len : Nat
  name : List Nat
  data : List Nat
deriving DecidableEq

/-- Model of `FileHeaderRepr::write`: build the fixed header via
`FileHeader::new` (with `self.name.len() as u32`), write it, then the name
bytes, then the payload bytes. -/
def FileHeaderRepr.writeBytes (f : FileHeaderRepr) : List Nat :=
  (FileHeader.new f.mode (f.name.length % 2 ^ 32) f.data_compression
      f.data_uncompressed_len f.data_len).writeBytes ++ f.name ++ f.data

/-- Model of `FileHeaderRepr::read`: decode the fixed header, `read_exact`
`name_len` name bytes, then either skip up to `data_len` payload bytes
(`io::copy` from `reader.take(data_len)` to a sink, which consumes at most
`data_len` bytes and never fails on a short stream) or `read_exact` exactly
`data_len` payload bytes. The final `data_compression()` unwrap is the
`Option.bind` on the tag. -/
def FileHeaderRepr.readBytes (skip_data : Bool) (s : List Nat) :
    Option (FileHeaderRepr × List Nat) :=
  (FileHeader.readBytes s).bind fun hs =>
    (readExact hs.1.name_len hs.2).bind fun ns =>
      ((if skip_data then some (([] : List Nat), ns.2.drop hs.1.data_len)
          else readExact hs.1.data_len ns.2)).bind fun ds =>
        (hs.1.data_compression).map fun dc =>
          (⟨hs.1.mode, dc, hs.1.data_uncompressed_len, hs.1.data_len,
            ns.1, ds.1⟩, ds.2)

/-- Model of the entry loop shared by `read_archive` and `unpack`: decode
`n` entries in sequence, threading the remaining stream. -/
def readEntries (skip_data : Bool) : Nat → List Nat → Option (List FileHeaderRepr × List Nat)
  | 0, s => some ([], s)
  | n + 1, s =>
    (FileHeaderRepr.readBytes skip_data s).bind fun fs =>
      (readEntries skip_data n fs.2).bind fun rest =>
        some (fs.1 :: rest.1, rest.2)

/-- Model of the decode phase of `read_archive` (the list pipeline): read the
archive header, then decode `file_count` entries with payload skipping. -/
def read_archive_decode (s : List Nat) : Option (ArchiveHeader × List FileHeaderRepr) :=
  (ArchiveHeader.readBytes s).bind fun hs =>
    (readEntries true hs.1.file_count hs.2).bind fun fs =>
      some (hs.1, fs.1)

/-- Model of the decode phase of `unpack`: read the archive header, then
decode `file_count` entries with their payloads materialized. -/
def unpack_decode (s : List Nat) : Option (ArchiveHeader × List FileHeaderRepr) :=
  (ArchiveHeader.readBytes s).bind fun hs =>
    (readEntries false hs.1.file_count hs.2).bind fun fs =>
      some (hs.1, fs.1)

/-- Model of `files.dedup_by(|l, r| l.1 == r.1)`: remove an element when its
canonical path (the second tuple component, `l.1` in Rust's 0-based
indexing) equals the previously retained element's, keeping the first of
each run of equal paths. -/
def dedupByPath {P : Type} [DecidableEq P] : List (String × P) → List (String × P)
  | [] => []
  | [a] => [a]
  | a :: b :: rest =>
      if a.2 = b.2 then dedupByPath (a :: rest) else a :: dedupByPath (b :: rest)
termination_by l => l.length

/-- The comparator `|l, r| l.1.cmp(&r.1)` of `pack`: order collected pairs
by their canonical path (the second component; Rust tuples index from 0). -/
def pathLE {P : Type} [LinearOrder P] (l r : String × P) : Bool :=
  decide (l.2 ≤ r.2)

/-- Model of lines 148-149 of `pack`: a stable sort by canonical path
(`files.sort_by(|l, r| l.1.cmp(&r.1))`) followed by the adjacent dedup. -/
def packSortDedup {P : Type} [LinearOrder P] (files : List (String × P)) :
    List (String × P) :=
  dedupByPath (files.mergeSort pathLE)

/-- Model of lines 148-157 of `pack`: the deduplicated sorted file list
together with the archive header written for it (`version: 0`,
`file_count: files.len() as u32`); the entry loop then writes the entries
in exactly this list order. -/
def packPlan {P : Type} [LinearOrder P] (files : List (String × P)) :
    ArchiveHeader × List (String × P) :=
  let fs := packSortDedup files
  (⟨0, fs.length % 2 ^ 32⟩, fs)

/-- Canonical paths of a collected file list. -/
def pathsOf {P : Type} (l : List (String × P)) : List P :=
  l.map fun x => x.2

/-- Observable actions of the `pack` entry point, in program order. -/
inductive PackEffect where
  | createOutput (path : String)
  | errorNoInputs
  | writeArchive
deriving DecidableEq

/-- Model of lines 102-113 of `pack`: when an output path is given,
`File::create` (which truncates an existing file to empty) runs while the
output writer is being built, before the `args.is_empty()` check; `rest`
stands for everything pack does after the check succeeds. -/
def packPrologue (output : Option String) (args : List String)
    (rest : List PackEffect) : List PackEffect :=
  (match output with
   | some o => [PackEffect.createOutput o]
   | Option.none => []) ++
  (if args.isEmpty then [PackEffect.errorNoInputs] else rest)

/-- A filesystem node for the unpack model: a regular file with its content
bytes, or a directory. -/
inductive FsEntry where
  | file (data : List Nat)
  | dir
deriving DecidableEq

/-- A filesystem for the unpack model: a partial map from paths (UTF-8 byte
sequences) to entries; `exists()` is `isSome`. -/
def FS : Type := List Nat → Option FsEntry

/-- Point update of a filesystem map. -/
def updateFS (fs : FS) (p : List Nat) (e : FsEntry) : FS :=
  fun q => if q = p then some e else fs q

/-- Model of `PathBuf::join`: an absolute right operand (leading `/`, byte
47) replaces the base, otherwise the name is appended after a separator. -/
def joinPath (d n : List Nat) : List Nat :=
  if n.head? = some 47 then n else d ++ 47 :: n

/-- Model of `Path::parent` for the joined destination paths: everything
before the last separator (and the empty path for separator-free paths,
as Rust returns `Some("")` there). -/
def parentDir (p : List Nat) : List Nat :=
  (((p.reverse.dropWhile fun b => b ≠ 47)).drop 1).reverse

/-- Filesystem actions performed by the unpack loop for one entry. The
`setPermissions` and `setFileTimes` constructors exist so that their
absence from every trace the code produces is statable; `unpack` in
src/main.rs never emits them. -/
inductive FsEffect where
  | warnExists (path : List Nat)
  | createDirAll (path : List Nat)
  | createFile (path : List Nat)
  | writeData (path : List Nat) (bytes : List Nat)
  | setPermissions (path : List Nat) (mode : Nat)
  | setFileTimes (path : List Nat) (modified accessed : Nat)
deriving DecidableEq

/-- Whether an effect restores file metadata (permission bits or
timestamps). -/
def FsEffect.isMetaRestore : FsEffect → Bool
  | .setPermissions _ _ => true
  | .setFileTimes _ _ _ => true
  | _ => false

/-- The bytes `unpack` writes for one entry: the payload as stored when the
tag is `None`, the Brotli-decompressed payload when it is `Brotli`
(the `match file.data_compression` at lines 243-250). -/
def entryContent (brotli : List Nat → List Nat) (f : FileHeaderRepr) : List Nat :=
  match f.data_compression with
  | DataCompression.none => f.data
  | DataCompression.brotli => brotli f.data

/-- Model of the body of the `unpack` loop (lines 229-251) for one decoded
entry: join the destination, skip (with a warning) when it exists,
otherwise create the missing parent directory, create the file and write
the payload decompressed according to the entry's tag. `brotli` is the
opaque decompressor. -/
def unpackEntry (brotli : List Nat → List Nat) (outDir : List Nat) (fs : FS)
    (f : FileHeaderRepr) : FS × List FsEffect :=
  let file_path := joinPath outDir f.name
  if (fs file_path).isSome then (fs, [FsEffect.warnExists file_path])
  else
    let par := parentDir file_path
    let step1 : FS × List FsEffect :=
      if (fs par).isSome then (fs, [])
      else (updateFS fs par FsEntry.dir, [FsEffect.createDirAll par])
    let content : List Nat := entryContent brotli f
    (updateFS step1.1 file_path (FsEntry.file content),
     step1.2 ++ [FsEffect.createFile file_path, FsEffect.writeData file_path content])

/-- Model of the whole `unpack` loop over the decoded entries, threading the
filesystem and concatenating the per-entry effects in order. -/
def unpackRun (brotli : List Nat → List Nat) (outDir : List Nat) :
    List FileHeaderRepr → FS → FS × List FsEffect
  | [], fs => (fs, [])
  | f :: rest, fs =>
      let step := unpackEntry brotli outDir fs f
      let tail := unpackRun brotli outDir rest step.1
      (tail.1, step.2 ++ tail.2)

/-- A filesystem node for the pack walker model. -/
inductive FsNode where
  | file (nm : String)
  | dir (nm : String) (children : List FsNode)

/-- The basename a node contributes to its path. -/
def FsNode.nm : FsNode → String
  | .file n => n
  | .dir n _ => n

mutual

/-- Model of `walk` (lines 254-276) specialized to a model directory tree.
If the root is not a directory the callback fires once for the root path
itself; for a directory, each child gets a callback (directories before
recursion, pruned when it returns `false`). The callback threads the
collected state. -/
def walkNode {σ : Type} (cb : Bool → String → σ → Bool × σ) :
    FsNode → String → σ → σ
  | .file _, path, s => (cb false path s).2
  | .dir _ children, path, s => walkEntryList cb children path s

/-- The `for entry in read_dir(dir)` loop of `walk`. -/
def walkEntryList {σ : Type} (cb : Bool → String → σ → Bool × σ) :
    List FsNode → String → σ → σ
  | [], _, s => s
  | c :: rest, path, s =>
      let cpath := path ++ "/" ++ c.nm
      match c with
      | .file _ => walkEntryList cb rest path ((cb false cpath s).2)
      | .dir _ _ =>
          let r := cb true cpath s
          let s2 := if r.1 then walkNode cb c cpath r.2 else r.2
          walkEntryList cb rest path s2
end

/-- Model of `Path::file_name` on the slash-separated string paths of the
walker model: the final path component, or nothing when the path is empty,
ends in a separator, or ends in `..`. -/
def fileNameOf (p : String) : Option String :=
  let last := ((p.data.reverse.takeWhile fun c => c != '/')).reverse
  if last.isEmpty then Option.none
  else if last = ['.', '.'] then Option.none
  else some (String.mk last)

/-- Model of `Path::parent` on the string paths of the walker model:
`none` for the empty path, otherwise everything before the last
separator (the empty string for separator-free paths, as Rust returns
`Some("")` there). -/
def parentPath (p : String) : Option String :=
  match p.data.reverse.dropWhile fun c => c != '/' with
  | [] => if p = "" then Option.none else some ""
  | _ :: rest => some (String.mk rest.reverse)

/-- Model of `path.strip_prefix(parent).unwrap()` for the walked paths: what
remains after the root's parent; stripping the empty parent is the
identity. Walked paths always extend the root's parent, so the fallback
branch is never reached on the paths `pack` produces. -/
def dropPathHead (parent : Option String) (p : String) : String :=
  match parent with
  | Option.none => p
  | some "" => p
  | some par =>
      if (par.data ++ ['/']).isPrefixOf p.data then
        String.mk (p.data.drop (par.data.length + 1))
      else p

/-- Whether `file_name` starts with a `.`: the model of
`path.file_name().is_some_and(|n| n.as_encoded_bytes()[0] == b'.')` (the
dot is one ASCII byte, so the first byte is `b'.'` exactly when the first
character is `'.'`). -/
def hiddenName (p : String) : Bool :=
  (fileNameOf p).any fun s => s.data.head? == some '.'

/-- The callback `pack` passes to `walk` (lines 127-145): prune nodes whose
name starts with `.` unless dotfiles are included; record
`(stripped name, canonical path)` for every regular file reached.
Canonicalization is the parameter `canon` (the model filesystem has no
symlinks, so a caller may take it to be the identity). -/
def packCb (canon : String → String) (include_dotfiles : Bool)
    (parent : Option String) (is_dir : Bool) (path : String)
    (acc : List (String × String)) : Bool × List (String × String) :=
  if !include_dotfiles && hiddenName path then (false, acc)
  else if is_dir then (true, acc)
  else (true, acc ++ [(dropPathHead parent path, canon path)])

/-- Model of the per-root body of the `pack` collection loop
(lines 117-147): skip the root outright when its own file name starts with
`.` and dotfiles are excluded, otherwise walk it with `packCb` using the
root's parent for name stripping. -/
def packCollectRoot (canon : String → String) (include_dotfiles : Bool)
    (rootPath : String) (node : FsNode) (acc : List (String × String)) :
    List (String × String) :=
  if !include_dotfiles && hiddenName rootPath then acc
  else walkNode (packCb canon include_dotfiles (parentPath rootPath)) node rootPath acc

/-- The layout claim of the specification for the entry fixed header: it
would begin with two `u64` epoch-second timestamp fields and carry the
mode, combined name-length/compression field, uncompressed length and
stored length after them. -/
def claimTimestampsFirstLayout : Prop :=
  ∃ modifiedOf accessedOf : FileHeader → Nat, ∀ h : FileHeader,
    h.writeBytes =
      toLEBytes 8 (modifiedOf h) ++ toLEBytes 8 (accessedOf h) ++
        toLEBytes 4 h.mode ++ toLEBytes 4 h.data_compression_and_name_len ++
        toLEBytes 8 h.data_uncompressed_len ++ toLEBytes 8 h.data_len

/-- The layout claim of the specification for the combined 32-bit field: the
compression tag would occupy the high 8 bits and the name length the low
24 bits. -/
def claimTagHighBits : Prop :=
  ∀ (mode nl : Nat) (dc : DataCompression) (u d : Nat), nl < 2 ^ 24 →
    (FileHeader.new mode nl dc u d).data_compression_and_name_len =
      dc.tag * 2 ^ 24 + nl

/- ===================== theorems: byte-level helpers ===================== -/

theorem toLEBytes_length (w n : Nat) : (toLEBytes w n).length = w := by
  induction w generalizing n with
  | zero => rfl
  | succ w ih => simp [toLEBytes, ih]

theorem fromLEBytes_toLEBytes (w n : Nat) :
    fromLEBytes (toLEBytes w n) = n % 2 ^ (8 * w) := by
  induction w generalizing n with
  | zero => simp [toLEBytes, fromLEBytes, Nat.mod_one]
  | succ w ih =>
      have h : 2 ^ (8 * (w + 1)) = 256 * 2 ^ (8 * w) := by ring
      rw [toLEBytes, fromLEBytes, ih, h, Nat.mod_mul]

theorem fromLEBytes_toLEBytes_of_lt {w n : Nat} (h : n < 2 ^ (8 * w)) :
    fromLEBytes (toLEBytes w n) = n := by
  rw [fromLEBytes_toLEBytes, Nat.mod_eq_of_lt h]

theorem readExact_append (a r : List Nat) :
    readExact a.length (a ++ r) = some (a, r) := by
  unfold readExact
  rw [if_neg (by simp), List.take_left, List.drop_left]

theorem readExact_of_length (n : Nat) (a r : List Nat) (h : a.length = n) :
    readExact n (a ++ r) = some (a, r) := by
  subst h; exact readExact_append a r

theorem take_full (a : List Nat) (n : Nat) (h : a.length = n) : a.take n = a := by
  subst h; exact List.take_length a

/-- The `lor` of a small value with a value shifted past it is their sum;
this justifies reading the packed `data_compression_and_name_len` field
back by masking and shifting. -/
theorem lor_mul_pow (k : Nat) :
    ∀ a b : Nat, a < 2 ^ k → a ||| b * 2 ^ k = a + b * 2 ^ k := by
  induction k with
  | zero =>
      intro a b ha
      have : a = 0 := by omega
      subst this; simp
  | succ k ih =>
      intro a b ha
      have hd : a.div2 < 2 ^ k := by
        rw [Nat.div2_val]
        have : 2 ^ (k + 1) = 2 * 2 ^ k := by ring
        omega
      have h2 : b * 2 ^ (k + 1) = Nat.bit false (b * 2 ^ k) := by
        simp [Nat.bit_val]; ring
      have key : a ||| b * 2 ^ (k + 1) = Nat.bit a.bodd (a.div2 + b * 2 ^ k) := by
        conv_lhs => rw [← Nat.bit_decomp a]
        rw [h2, Nat.lor_bit, Bool.or_false, ih a.div2 b hd]
      have hb : a = 2 * a.div2 + a.bodd.toNat := by
        rw [← Nat.bit_val, Nat.bit_decomp]
      rw [key, Nat.bit_val]
      have hp : 2 ^ (k + 1) = 2 * 2 ^ k := by ring
      conv_rhs => rw [hb, hp]
      ring

theorem DataCompression.tag_lt (dc : DataCompression) : dc.tag < 2 ^ 8 := by
  cases dc <;> simp [tag]

theorem DataCompression.tryFrom_tag (dc : DataCompression) :
    DataCompression.tryFrom dc.tag = some dc := by
  cases dc <;> rfl

/- ===================== theorems: header codecs ===================== -/

theorem ArchiveHeader.writeBytes_length_eight (h : ArchiveHeader) :
    h.writeBytes.length = 8 := by
  simp [writeBytes, toLEBytes_length]

theorem ArchiveHeader.read_write_inverse (h : ArchiveHeader) (r : List Nat)
    (hv : h.version < 2 ^ 32) (hc : h.file_count < 2 ^ 32) :
    ArchiveHeader.readBytes (h.writeBytes ++ r) = some (h, r) := by
  unfold readBytes
  rw [readExact_of_length 8 h.writeBytes r h.writeBytes_length_eight, Option.map_some']
  unfold writeBytes
  rw [List.take_left' (toLEBytes_length 4 h.version),
    List.drop_left' (toLEBytes_length 4 h.version),
    take_full _ _ (toLEBytes_length 4 h.file_count)]
  rw [fromLEBytes_toLEBytes_of_lt (by simpa using hv),
    fromLEBytes_toLEBytes_of_lt (by simpa using hc)]

theorem FileHeader.writeBytes_length_24 (h : FileHeader) :
    h.writeBytes.length = 24 := by
  simp [writeBytes, toLEBytes_length]

theorem FileHeader.new_comb (mode nl : Nat) (dc : DataCompression) (u d : Nat)
    (h : nl < 2 ^ 24) :
    (FileHeader.new mode nl dc u d).data_compression_and_name_len =
      dc.tag + nl * 256 := by
  simp only [FileHeader.new]
  have h1 : nl * 256 < 2 ^ 32 := by omega
  rw [Nat.mod_eq_of_lt h1]
  have h2 := lor_mul_pow 8 dc.tag nl dc.tag_lt
  norm_num at h2
  exact h2

theorem DataCompression.tag_lt_256 (dc : DataCompression) : dc.tag < 256 := by
  cases dc <;> simp [tag]

theorem FileHeader.new_comb_lt (mode nl : Nat) (dc : DataCompression) (u d : Nat)
    (h : nl < 2 ^ 24) :
    (FileHeader.new mode nl dc u d).data_compression_and_name_len < 2 ^ 32 := by
  rw [FileHeader.new_comb mode nl dc u d h]
  have := dc.tag_lt_256
  omega

theorem FileHeader.name_len_new (mode nl : Nat) (dc : DataCompression) (u d : Nat)
    (h : nl < 2 ^ 24) : (FileHeader.new mode nl dc u d).name_len = nl := by
  rw [FileHeader.name_len, FileHeader.new_comb mode nl dc u d h,
    Nat.shiftRight_eq_div_pow]
  have := dc.tag_lt_256
  have h256 : (2 : Nat) ^ 8 = 256 := by norm_num
  rw [h256]
  omega

theorem FileHeader.data_compression_new (mode nl : Nat) (dc : DataCompression)
    (u d : Nat) (h : nl < 2 ^ 24) :
    (FileHeader.new mode nl dc u d).data_compression = some dc := by
  rw [FileHeader.data_compression, FileHeader.new_comb mode nl dc u d h]
  have := dc.tag_lt_256
  have hmod : (dc.tag + nl * 256) % 256 = dc.tag := by omega
  rw [hmod, DataCompression.tryFrom_tag]

theorem FileHeader.read_write_fixed_inverse (h : FileHeader) (r : List Nat)
    (h1 : h.mode < 2 ^ 32) (h2 : h.data_compression_and_name_len < 2 ^ 32)
    (h3 : h.data_uncompressed_len < 2 ^ 64) (h4 : h.data_len < 2 ^ 64) :
    FileHeader.readBytes (h.writeBytes ++ r) = some (h, r) := by
  have eA := toLEBytes_length 4 h.mode
  have eB := toLEBytes_length 4 h.data_compression_and_name_len
  have eC := toLEBytes_length 8 h.data_uncompressed_len
  have eD := toLEBytes_length 8 h.data_len
  have hW : h.writeBytes =
      toLEBytes 4 h.mode ++ (toLEBytes 4 h.data_compression_and_name_len ++
        (toLEBytes 8 h.data_uncompressed_len ++ toLEBytes 8 h.data_len)) := by
    simp [writeBytes, List.append_assoc]
  unfold readBytes
  rw [readExact_of_length 24 h.writeBytes r h.writeBytes_length_24, Option.map_some']
  rw [hW]
  rw [List.take_left' eA, List.drop_left' eA, List.take_left' eB]
  have t4 : (toLEBytes 4 h.mode ++ (toLEBytes 4 h.data_compression_and_name_len ++
      (toLEBytes 8 h.data_uncompressed_len ++ toLEBytes 8 h.data_len))).drop 8 =
      toLEBytes 8 h.data_uncompressed_len ++ toLEBytes 8 h.data_len := by
    have hx : List.drop 4 (List.drop 4 (toLEBytes 4 h.mode ++
        (toLEBytes 4 h.data_compression_and_name_len ++
          (toLEBytes 8 h.data_uncompressed_len ++ toLEBytes 8 h.data_len)))) =
        toLEBytes 8 h.data_uncompressed_len ++ toLEBytes 8 h.data_len := by
      rw [List.drop_left' eA, List.drop_left' eB]
    rw [List.drop_drop] at hx
    norm_num at hx
    exact hx
  rw [t4, List.take_left' eC]
  have t6 : (toLEBytes 4 h.mode ++ (toLEBytes 4 h.data_compression_and_name_len ++
      (toLEBytes 8 h.data_uncompressed_len ++ toLEBytes 8 h.data_len))).drop 16 =
      toLEBytes 8 h.data_len := by
    have hx : List.drop 8 (List.drop 8 (toLEBytes 4 h.mode ++
        (toLEBytes 4 h.data_compression_and_name_len ++
          (toLEBytes 8 h.data_uncompressed_len ++ toLEBytes 8 h.data_len)))) =
        toLEBytes 8 h.data_len := by
      rw [t4, List.drop_left' eC]
    rw [List.drop_drop] at hx
    norm_num at hx
    exact hx
  rw [t6, take_full _ _ eD]
  rw [fromLEBytes_toLEBytes_of_lt (by simpa using h1),
    fromLEBytes_toLEBytes_of_lt (by simpa using h2),
    fromLEBytes_toLEBytes_of_lt (by simpa using h3),
    fromLEBytes_toLEBytes_of_lt (by simpa using h4)]

theorem readExact_too_short (n : Nat) (s : List Nat) (h : s.length < n) :
    readExact n s = Option.none := by
  unfold readExact
  rw [if_pos h]

theorem FileHeaderRepr.entry_read_write_inverse (f : FileHeaderRepr) (r : List Nat)
    (hm : f.mode < 2 ^ 32) (hn : f.name.length < 2 ^ 24)
    (hu : f.data_uncompressed_len < 2 ^ 64) (hd : f.data_len < 2 ^ 64)
    (hlen : f.data_len = f.data.length) :
    FileHeaderRepr.readBytes false (f.writeBytes ++ r) = some (f, r) := by
  have hn32 : f.name.length % 2 ^ 32 = f.name.length := Nat.mod_eq_of_lt (by omega)
  have hw : f.writeBytes ++ r =
      (FileHeader.new f.mode f.name.length f.data_compression
        f.data_uncompressed_len f.data_len).writeBytes ++ (f.name ++ (f.data ++ r)) := by
    unfold FileHeaderRepr.writeBytes
    rw [hn32, List.append_assoc, List.append_assoc]
  rw [FileHeaderRepr.readBytes, hw,
    FileHeader.read_write_fixed_inverse _ _ hm
      (FileHeader.new_comb_lt f.mode f.name.length f.data_compression
        f.data_uncompressed_len f.data_len hn) hu hd]
  simp only [Option.some_bind]
  rw [FileHeader.name_len_new f.mode f.name.length f.data_compression
      f.data_uncompressed_len f.data_len hn,
    readExact_of_length f.name.length f.name (f.data ++ r) rfl]
  simp only [Option.some_bind, Bool.false_eq_true, if_false]
  rw [show (FileHeader.new f.mode f.name.length f.data_compression
      f.data_uncompressed_len f.data_len).data_len = f.data_len from rfl,
    readExact_of_length f.data_len f.data r hlen.symm]
  simp only [Option.some_bind]
  rw [FileHeader.data_compression_new f.mode f.name.length f.data_compression
      f.data_uncompressed_len f.data_len hn]
  simp [FileHeader.new]

theorem FileHeaderRepr.readBytes_truncated_fails (f : FileHeaderRepr) (m : Nat)
    (hm : f.mode < 2 ^ 32) (hn : f.name.length < 2 ^ 24)
    (hu : f.data_uncompressed_len < 2 ^ 64) (hd : f.data_len < 2 ^ 64)
    (hlen : f.data_len = f.data.length) (htr : m < f.data.length) :
    FileHeaderRepr.readBytes false
      ((FileHeader.new f.mode f.name.length f.data_compression
        f.data_uncompressed_len f.data_len).writeBytes ++
          (f.name ++ f.data.take m)) = Option.none := by
  rw [FileHeaderRepr.readBytes,
    FileHeader.read_write_fixed_inverse _ _ hm
      (FileHeader.new_comb_lt f.mode f.name.length f.data_compression
        f.data_uncompressed_len f.data_len hn) hu hd]
  simp only [Option.some_bind]
  rw [FileHeader.name_len_new f.mode f.name.length f.data_compression
      f.data_uncompressed_len f.data_len hn,
    readExact_of_length f.name.length f.name (f.data.take m) rfl]
  simp only [Option.some_bind, Bool.false_eq_true, if_false]
  rw [show (FileHeader.new f.mode f.name.length f.data_compression
      f.data_uncompressed_len f.data_len).data_len = f.data_len from rfl,
    readExact_too_short f.data_len (f.data.take m)
      (by simp [List.length_take]; omega)]
  rfl

theorem FileHeaderRepr.readBytes_truncated_skips (f : FileHeaderRepr) (m : Nat)
    (hm : f.mode < 2 ^ 32) (hn : f.name.length < 2 ^ 24)
    (hu : f.data_uncompressed_len < 2 ^ 64) (hd : f.data_len < 2 ^ 64)
    (hlen : f.data_len = f.data.length) (htr : m < f.data.length) :
    FileHeaderRepr.readBytes true
      ((FileHeader.new f.mode f.name.length f.data_compression
        f.data_uncompressed_len f.data_len).writeBytes ++
          (f.name ++ f.data.take m)) =
      some (⟨f.mode, f.data_compression, f.data_uncompressed_len, f.data_len,
        f.name, []⟩, []) := by
  rw [FileHeaderRepr.readBytes,
    FileHeader.read_write_fixed_inverse _ _ hm
      (FileHeader.new_comb_lt f.mode f.name.length f.data_compression
        f.data_uncompressed_len f.data_len hn) hu hd]
  simp only [Option.some_bind]
  rw [FileHeader.name_len_new f.mode f.name.length f.data_compression
      f.data_uncompressed_len f.data_len hn,
    readExact_of_length f.name.length f.name (f.data.take m) rfl]
  simp only [Option.some_bind]
  rw [if_pos trivial]
  rw [show (FileHeader.new f.mode f.name.length f.data_compression
      f.data_uncompressed_len f.data_len).data_len = f.data_len from rfl]
  rw [List.drop_eq_nil_of_le (by simp [List.length_take]; omega)]
  simp only [Option.some_bind]
  rw [FileHeader.data_compression_new f.mode f.name.length f.data_compression
      f.data_uncompressed_len f.data_len hn]
  simp [FileHeader.new]

/- ===================== claim theorems ===================== -/

/-- C2 counterexample: the serialized entry fixed header cannot begin with
two u64 timestamp fields followed by the remaining fields — no choice of
timestamp functions makes the written bytes take that shape, already
because the written fixed header is 24 bytes and the claimed layout is 40. -/
theorem C2_counterexample : ¬ claimTimestampsFirstLayout := by
  intro hcl
  obtain ⟨modifiedOf, accessedOf, hall⟩ := hcl
  have h := hall ⟨0, 0, 0, 0⟩
  have hlen := congrArg List.length h
  rw [FileHeader.writeBytes_length_24] at hlen
  simp [List.length_append, toLEBytes_length] at hlen

/-- C2 (amended): every serialized entry's fixed header is 24 bytes — the
mode as a little-endian u32, then the combined compression/name-length
u32, then the uncompressed length and the stored length as little-endian
u64 — and the fixed-header reader decodes those bytes back to the original
fields; the format stores no timestamp fields at all. -/
theorem C2_entry_header_layout (h : FileHeader) (r : List Nat)
    (h1 : h.mode < 2 ^ 32) (h2 : h.data_compression_and_name_len < 2 ^ 32)
    (h3 : h.data_uncompressed_len < 2 ^ 64) (h4 : h.data_len < 2 ^ 64) :
    h.writeBytes.length = 24 ∧
    h.writeBytes =
      toLEBytes 4 h.mode ++ toLEBytes 4 h.data_compression_and_name_len ++
        toLEBytes 8 h.data_uncompressed_len ++ toLEBytes 8 h.data_len ∧
    FileHeader.readBytes (h.writeBytes ++ r) = some (h, r) :=
  ⟨h.writeBytes_length_24, rfl, FileHeader.read_write_fixed_inverse h r h1 h2 h3 h4⟩

theorem C2_witness :
    (493 : Nat) < 2 ^ 32 ∧ (513 : Nat) < 2 ^ 32 ∧ (3 : Nat) < 2 ^ 64 ∧
      (3 : Nat) < 2 ^ 64 ∧
    ((⟨493, 513, 3, 3⟩ : FileHeader).writeBytes.length = 24 ∧
     (⟨493, 513, 3, 3⟩ : FileHeader).writeBytes =
       toLEBytes 4 493 ++ toLEBytes 4 513 ++ toLEBytes 8 3 ++ toLEBytes 8 3 ∧
     FileHeader.readBytes ((⟨493, 513, 3, 3⟩ : FileHeader).writeBytes ++ [9]) =
       some (⟨493, 513, 3, 3⟩, [9])) :=
  ⟨by decide, by decide, by decide, by decide,
   C2_entry_header_layout ⟨493, 513, 3, 3⟩ [9] (by decide) (by decide)
     (by decide) (by decide)⟩

/-- C5 counterexample: in the combined 32-bit field the compression tag does
not occupy the high bits — for name length 2 and the Brotli tag the field
is 513, not 2 to the 24 plus 2. -/
theorem C5_counterexample : ¬ claimTagHighBits := by
  intro hcl
  have h := hcl 0 2 DataCompression.brotli 0 0 (by norm_num)
  rw [FileHeader.new_comb 0 2 DataCompression.brotli 0 0 (by norm_num)] at h
  norm_num [DataCompression.tag] at h

/-- C5 (amended): in the combined 32-bit field built by `FileHeader::new`,
the compression tag occupies the LOW 8 bits and the name length the HIGH
24 bits (`tag ||| name_len << 8`); accordingly `name_len()` recovers the
length from the high bits and `data_compression()` the tag from the low
byte. The code's doc comment on the field claims the opposite packing and
is inaccurate. -/
theorem C5_combined_field_layout (mode nl : Nat) (dc : DataCompression)
    (u d : Nat) (h : nl < 2 ^ 24) :
    (FileHeader.new mode nl dc u d).data_compression_and_name_len =
      dc.tag + nl * 2 ^ 8 ∧
    (FileHeader.new mode nl dc u d).name_len = nl ∧
    (FileHeader.new mode nl dc u d).data_compression = some dc := by
  refine ⟨?_, FileHeader.name_len_new mode nl dc u d h,
    FileHeader.data_compression_new mode nl dc u d h⟩
  rw [FileHeader.new_comb mode nl dc u d h]
  norm_num

theorem C5_witness :
    (2 : Nat) < 2 ^ 24 ∧
    ((FileHeader.new 7 2 DataCompression.brotli 10 9).data_compression_and_name_len =
       DataCompression.brotli.tag + 2 * 2 ^ 8 ∧
     (FileHeader.new 7 2 DataCompression.brotli 10 9).name_len = 2 ∧
     (FileHeader.new 7 2 DataCompression.brotli 10 9).data_compression =
       some DataCompression.brotli) :=
  ⟨by decide, C5_combined_field_layout 7 2 DataCompression.brotli 10 9 (by decide)⟩

/-- C6: writing an entry whose `data_len` equals its payload length and whose
name is shorter than 2 to the 24 bytes, then decoding the produced bytes
with payload reading enabled, returns the identical entry (same mode,
compression tag, uncompressed length, stored length, name and payload)
and leaves exactly the trailing stream. -/
theorem C6_entry_roundtrip (f : FileHeaderRepr) (r : List Nat)
    (hm : f.mode < 2 ^ 32) (hn : f.name.length < 2 ^ 24)
    (hu : f.data_uncompressed_len < 2 ^ 64) (hd : f.data_len < 2 ^ 64)
    (hlen : f.data_len = f.data.length) :
    FileHeaderRepr.readBytes false (f.writeBytes ++ r) = some (f, r) :=
  FileHeaderRepr.entry_read_write_inverse f r hm hn hu hd hlen

theorem C6_witness :
    (420 : Nat) < 2 ^ 32 ∧ ([97] : List Nat).length < 2 ^ 24 ∧
      (3 : Nat) < 2 ^ 64 ∧ (3 : Nat) < 2 ^ 64 ∧
      (3 : Nat) = ([1, 2, 3] : List Nat).length ∧
    FileHeaderRepr.readBytes false
        ((⟨420, DataCompression.none, 3, 3, [97], [1, 2, 3]⟩ :
          FileHeaderRepr).writeBytes ++ [8]) =
      some (⟨420, DataCompression.none, 3, 3, [97], [1, 2, 3]⟩, [8]) :=
  ⟨by decide, by decide, by decide, by decide, by decide,
   C6_entry_roundtrip ⟨420, DataCompression.none, 3, 3, [97], [1, 2, 3]⟩ [8]
     (by decide) (by decide) (by decide) (by decide) (by decide)⟩

/-- C7: the archive header codec writes exactly 8 bytes — the version as a
little-endian u32 followed by the entry count as a little-endian u32 —
and reading those bytes back returns the original header. -/
theorem C7_archive_header_roundtrip (h : ArchiveHeader) (r : List Nat)
    (hv : h.version < 2 ^ 32) (hc : h.file_count < 2 ^ 32) :
    h.writeBytes.length = 8 ∧
    h.writeBytes = toLEBytes 4 h.version ++ toLEBytes 4 h.file_count ∧
    ArchiveHeader.readBytes (h.writeBytes ++ r) = some (h, r) :=
  ⟨h.writeBytes_length_eight, rfl, ArchiveHeader.read_write_inverse h r hv hc⟩

theorem C7_witness :
    (0 : Nat) < 2 ^ 32 ∧ (2 : Nat) < 2 ^ 32 ∧
    ((⟨0, 2⟩ : ArchiveHeader).writeBytes.length = 8 ∧
     (⟨0, 2⟩ : ArchiveHeader).writeBytes = toLEBytes 4 0 ++ toLEBytes 4 2 ∧
     ArchiveHeader.readBytes ((⟨0, 2⟩ : ArchiveHeader).writeBytes ++ [7]) =
       some (⟨0, 2⟩, [7])) :=
  ⟨by decide, by decide,
   C7_archive_header_roundtrip ⟨0, 2⟩ [7] (by decide) (by decide)⟩

theorem readEntries_one (skip_data : Bool) (s : List Nat) :
    readEntries skip_data 1 s =
      (FileHeaderRepr.readBytes skip_data s).bind fun fs =>
        some ([fs.1], fs.2) := by
  show ((FileHeaderRepr.readBytes skip_data s).bind fun fs =>
      (readEntries skip_data 0 fs.2).bind fun rest =>
        some (fs.1 :: rest.1, rest.2)) = _
  cases FileHeaderRepr.readBytes skip_data s with
  | none => rfl
  | some fs => rfl

theorem truncated_archive_bytes (f : FileHeaderRepr) (version m : Nat)
    (hn : f.name.length < 2 ^ 24) :
    ((ArchiveHeader.mk version 1).writeBytes ++ f.writeBytes).take
        (8 + (24 + (f.name.length + m))) =
      (ArchiveHeader.mk version 1).writeBytes ++
        ((FileHeader.new f.mode f.name.length f.data_compression
          f.data_uncompressed_len f.data_len).writeBytes ++
            (f.name ++ f.data.take m)) := by
  have hn32 : f.name.length % 2 ^ 32 = f.name.length := Nat.mod_eq_of_lt (by omega)
  have hw : f.writeBytes =
      (FileHeader.new f.mode f.name.length f.data_compression
        f.data_uncompressed_len f.data_len).writeBytes ++ (f.name ++ f.data) := by
    unfold FileHeaderRepr.writeBytes
    rw [hn32, List.append_assoc]
  conv_lhs =>
    rw [show (8 : Nat) + (24 + (f.name.length + m)) =
        ((ArchiveHeader.mk version 1).writeBytes).length + (24 + (f.name.length + m))
      from by rw [ArchiveHeader.writeBytes_length_eight]]
    rw [List.take_append, hw]
    rw [show (24 : Nat) + (f.name.length + m) =
        ((FileHeader.new f.mode f.name.length f.data_compression
          f.data_uncompressed_len f.data_len).writeBytes).length +
            (f.name.length + m)
      from by rw [FileHeader.writeBytes_length_24]]
    rw [List.take_append]
    rw [show f.name.length + m = (f.name).length + m from rfl]
    rw [List.take_append]

/-- C3 counterexample: a single-entry archive (uncompressed payload of three
bytes) truncated one byte into the payload. The unpack pipeline fails on
it, but the list pipeline succeeds instead of failing: its payload skip
consumes fewer than `stored_len` bytes without erroring. -/
theorem C3_counterexample :
    read_archive_decode
        (((ArchiveHeader.mk 0 1).writeBytes ++
          (⟨420, DataCompression.none, 3, 3, [97], [1, 2, 3]⟩ :
            FileHeaderRepr).writeBytes).take 34) ≠ Option.none ∧
    unpack_decode
        (((ArchiveHeader.mk 0 1).writeBytes ++
          (⟨420, DataCompression.none, 3, 3, [97], [1, 2, 3]⟩ :
            FileHeaderRepr).writeBytes).take 34) = Option.none := by
  constructor
  · decide
  · decide

/-- C3 (amended): truncating a single-entry archive in the middle of the
payload makes the unpack pipeline fail, but the list pipeline succeeds
silently: its per-entry payload skip consumes only the bytes that remain
and does not compare the count against `stored_len`, so it reports the
entry (with its recorded metadata) as if the archive were intact. -/
theorem C3_truncation_detection (f : FileHeaderRepr) (version m : Nat)
    (hv : version < 2 ^ 32)
    (hm : f.mode < 2 ^ 32) (hn : f.name.length < 2 ^ 24)
    (hu : f.data_uncompressed_len < 2 ^ 64) (hd : f.data_len < 2 ^ 64)
    (hlen : f.data_len = f.data.length) (htr : m < f.data.length) :
    unpack_decode
        (((ArchiveHeader.mk version 1).writeBytes ++ f.writeBytes).take
          (8 + (24 + (f.name.length + m)))) = Option.none ∧
    read_archive_decode
        (((ArchiveHeader.mk version 1).writeBytes ++ f.writeBytes).take
          (8 + (24 + (f.name.length + m)))) =
      some (⟨version, 1⟩,
        [⟨f.mode, f.data_compression, f.data_uncompressed_len, f.data_len,
          f.name, []⟩]) := by
  rw [truncated_archive_bytes f version m hn]
  constructor
  · unfold unpack_decode
    rw [ArchiveHeader.read_write_inverse ⟨version, 1⟩ _ hv (by norm_num)]
    simp only [Option.some_bind]
    rw [readEntries_one,
      FileHeaderRepr.readBytes_truncated_fails f m hm hn hu hd hlen htr]
    rfl
  · unfold read_archive_decode
    rw [ArchiveHeader.read_write_inverse ⟨version, 1⟩ _ hv (by norm_num)]
    simp only [Option.some_bind]
    rw [readEntries_one,
      FileHeaderRepr.readBytes_truncated_skips f m hm hn hu hd hlen htr]
    rfl

theorem C3_witness :
    (0 : Nat) < 2 ^ 32 ∧ (420 : Nat) < 2 ^ 32 ∧
      ([97] : List Nat).length < 2 ^ 24 ∧ (3 : Nat) < 2 ^ 64 ∧
      (3 : Nat) < 2 ^ 64 ∧ (3 : Nat) = ([1, 2, 3] : List Nat).length ∧
      (1 : Nat) < ([1, 2, 3] : List Nat).length ∧
    (unpack_decode
        (((ArchiveHeader.mk 0 1).writeBytes ++
          (⟨420, DataCompression.none, 3, 3, [97], [1, 2, 3]⟩ :
            FileHeaderRepr).writeBytes).take (8 + (24 + (1 + 1)))) =
        Option.none ∧
     read_archive_decode
        (((ArchiveHeader.mk 0 1).writeBytes ++
          (⟨420, DataCompression.none, 3, 3, [97], [1, 2, 3]⟩ :
            FileHeaderRepr).writeBytes).take (8 + (24 + (1 + 1)))) =
        some (⟨0, 1⟩, [⟨420, DataCompression.none, 3, 3, [97], []⟩])) :=
  ⟨by decide, by decide, by decide, by decide, by decide, by decide, by decide,
   C3_truncation_detection ⟨420, DataCompression.none, 3, 3, [97], [1, 2, 3]⟩
     0 1 (by decide) (by decide) (by decide) (by decide) (by decide)
     (by decide) (by decide)⟩

theorem dedupByPath_sublist {P : Type} [DecidableEq P] (l : List (String × P)) :
    (dedupByPath l).Sublist l := by
  induction l using dedupByPath.induct with
  | case1 => rw [dedupByPath]
  | case2 a => rw [dedupByPath]
  | case3 a b rest h ih =>
      rw [dedupByPath, if_pos h]
      exact ih.trans ((List.Sublist.cons₂ a (List.sublist_cons_self b rest)))
  | case4 a b rest h ih =>
      rw [dedupByPath, if_neg h]
      exact List.Sublist.cons₂ a ih

theorem pathsOf_dedupByPath_mem {P : Type} [DecidableEq P]
    (l : List (String × P)) (q : P) :
    q ∈ pathsOf (dedupByPath l) ↔ q ∈ pathsOf l := by
  induction l using dedupByPath.induct with
  | case1 => rw [dedupByPath]
  | case2 a => rw [dedupByPath]
  | case3 a b rest h ih =>
      rw [dedupByPath, if_pos h]
      rw [ih]
      simp only [pathsOf, List.map_cons, List.mem_cons]
      rw [← h]
      tauto
  | case4 a b rest h ih =>
      rw [dedupByPath, if_neg h]
      simp only [pathsOf, List.map_cons, List.mem_cons] at ih ⊢
      rw [ih]

theorem pathsOf_dedupByPath_nodup {P : Type} [LinearOrder P]
    (l : List (String × P))
    (hs : List.Pairwise (fun a b : String × P => a.2 ≤ b.2) l) :
    (pathsOf (dedupByPath l)).Nodup := by
  induction l using dedupByPath.induct with
  | case1 => simp [pathsOf, dedupByPath]
  | case2 a => simp [pathsOf, dedupByPath]
  | case3 a b rest h ih =>
      rw [dedupByPath, if_pos h]
      refine ih ?_
      have hsub : (a :: rest).Sublist (a :: b :: rest) :=
        List.Sublist.cons₂ a (List.sublist_cons_self b rest)
      exact List.Pairwise.sublist hsub hs
  | case4 a b rest h ih =>
      rw [dedupByPath, if_neg h]
      rw [List.pairwise_cons] at hs
      obtain ⟨hall, htail⟩ := hs
      have htailnodup := ih htail
      simp only [pathsOf, List.map_cons, List.nodup_cons]
      refine ⟨?_, htailnodup⟩
      intro hmem
      have hmem2 : a.2 ∈ pathsOf (b :: rest) :=
        (pathsOf_dedupByPath_mem (b :: rest) a.2).mp hmem
      have hab : a.2 ≤ b.2 := hall b (by simp)
      have hlt : a.2 < b.2 := lt_of_le_of_ne hab h
      rw [List.pairwise_cons] at htail
      obtain ⟨hball, _⟩ := htail
      simp only [pathsOf, List.map_cons, List.mem_cons] at hmem2
      rcases hmem2 with heq | hmem3
      · exact h heq
      · obtain ⟨c, hc, hceq⟩ := List.mem_map.mp hmem3
        have : b.2 ≤ c.2 := hball c hc
        rw [hceq] at this
        exact absurd rfl (ne_of_lt (lt_of_lt_of_le hlt this))

/-- C8: pack sorts the collected (name, canonical-path) pairs by canonical
path and removes duplicates, so the planned entry list is sorted by path
with exactly one entry per distinct canonical path of the input, the
entries are written in that order, and the header's entry count equals the
deduplicated list's length. -/
theorem C8_sort_dedup_plan {P : Type} [LinearOrder P]
    (files : List (String × P)) (hlen : files.length < 2 ^ 32) :
    (packPlan files).1.version = 0 ∧
    (packPlan files).1.file_count = (packPlan files).2.length ∧
    (packPlan files).2 = packSortDedup files ∧
    List.Pairwise (fun a b : String × P => a.2 ≤ b.2) (packPlan files).2 ∧
    (pathsOf (packPlan files).2).Nodup ∧
    (∀ q : P, q ∈ pathsOf (packPlan files).2 ↔ q ∈ pathsOf files) := by
  have hsorted : List.Pairwise
      (fun a b : String × P => pathLE a b = true) (files.mergeSort pathLE) :=
    List.sorted_mergeSort
      (fun a b c hab hbc => by
        simp only [pathLE, decide_eq_true_eq] at hab hbc ⊢
        exact le_trans hab hbc)
      (fun a b => by
        simp only [pathLE, Bool.or_eq_true, decide_eq_true_eq]
        exact le_total a.2 b.2)
      files
  have hsorted2 : List.Pairwise
      (fun a b : String × P => a.2 ≤ b.2) (files.mergeSort pathLE) :=
    hsorted.imp (by
      intro a b hab
      simpa [pathLE, decide_eq_true_eq] using hab)
  have hperm := List.mergeSort_perm files pathLE
  have hdsub := dedupByPath_sublist (files.mergeSort pathLE)
  refine ⟨rfl, ?_, rfl, ?_, ?_, ?_⟩
  · show (packSortDedup files).length % 2 ^ 32 = (packSortDedup files).length
    apply Nat.mod_eq_of_lt
    calc (packSortDedup files).length
        ≤ (files.mergeSort pathLE).length := hdsub.length_le
      _ = files.length := hperm.length_eq
      _ < 2 ^ 32 := hlen
  · exact List.Pairwise.sublist hdsub hsorted2
  · exact pathsOf_dedupByPath_nodup _ hsorted2
  · intro q
    show q ∈ pathsOf (packSortDedup files) ↔ _
    unfold packSortDedup
    rw [pathsOf_dedupByPath_mem]
    unfold pathsOf
    exact (hperm.map fun x => x.2).mem_iff

theorem C8_witness :
    ([("b", 2), ("a", 1), ("c", 2)] : List (String × Nat)).length < 2 ^ 32 ∧
    ((packPlan [("b", 2), ("a", 1), ("c", 2)]).1.version = 0 ∧
     (packPlan [("b", 2), ("a", 1), ("c", 2)]).1.file_count =
       (packPlan [("b", 2), ("a", 1), ("c", 2)]).2.length ∧
     (packPlan [("b", 2), ("a", 1), ("c", 2)]).2 =
       packSortDedup [("b", 2), ("a", 1), ("c", 2)] ∧
     List.Pairwise (fun a b : String × Nat => a.2 ≤ b.2)
       (packPlan [("b", 2), ("a", 1), ("c", 2)]).2 ∧
     (pathsOf (packPlan [("b", 2), ("a", 1), ("c", 2)]).2).Nodup ∧
     (∀ q : Nat, q ∈ pathsOf (packPlan [("b", 2), ("a", 1), ("c", 2)]).2 ↔
       q ∈ pathsOf [("b", 2), ("a", 1), ("c", 2)])) :=
  ⟨by decide, C8_sort_dedup_plan [("b", 2), ("a", 1), ("c", 2)] (by decide)⟩

theorem unpackEntry_preserves (brotli : List Nat → List Nat) (outDir : List Nat)
    (fs : FS) (f : FileHeaderRepr) (p : List Nat) (e : FsEntry)
    (hp : fs p = some e) :
    (unpackEntry brotli outDir fs f).1 p = some e := by
  have hpne : ∀ q : List Nat, fs q = Option.none → q ≠ p := by
    intro q hq hqp
    rw [hqp, hp] at hq
    exact Option.noConfusion hq
  by_cases hex : (fs (joinPath outDir f.name)).isSome = true
  · simp only [unpackEntry, hex, if_true]
    exact hp
  · have hexn : fs (joinPath outDir f.name) = Option.none := by
      cases hfs : fs (joinPath outDir f.name) with
      | none => rfl
      | some y => rw [hfs] at hex; exact absurd rfl hex
    by_cases hpar : (fs (parentDir (joinPath outDir f.name))).isSome = true
    · simp only [unpackEntry, hex, hpar, if_true, if_false, Bool.false_eq_true]
      show updateFS fs (joinPath outDir f.name) _ p = some e
      unfold updateFS
      rw [if_neg (fun hq => (hpne _ hexn) hq.symm)]
      exact hp
    · have hparn : fs (parentDir (joinPath outDir f.name)) = Option.none := by
        cases hfs : fs (parentDir (joinPath outDir f.name)) with
        | none => rfl
        | some y => rw [hfs] at hpar; exact absurd rfl hpar
      simp only [unpackEntry, hex, hpar, if_false, Bool.false_eq_true]
      show updateFS (updateFS fs _ _) (joinPath outDir f.name) _ p = some e
      unfold updateFS
      rw [if_neg (fun hq => (hpne _ hexn) hq.symm)]
      rw [if_neg (fun hq => (hpne _ hparn) hq.symm)]
      exact hp

theorem unpackRun_preserves (brotli : List Nat → List Nat) (outDir : List Nat)
    (es : List FileHeaderRepr) (fs : FS) (p : List Nat) (e : FsEntry)
    (hp : fs p = some e) :
    (unpackRun brotli outDir es fs).1 p = some e := by
  induction es generalizing fs with
  | nil => exact hp
  | cons f rest ih =>
      show (unpackRun brotli outDir rest (unpackEntry brotli outDir fs f).1).1 p = some e
      exact ih _ (unpackEntry_preserves brotli outDir fs f p e hp)

/-- C9: when an entry's destination path already exists at the moment the
entry is processed, `unpack` leaves the existing file unchanged, records
the condition as a per-entry warning, and keeps processing the remaining
entries exactly as it would have without this entry; moreover no file that
existed before the run is ever overwritten by it. -/
theorem C9_skip_existing (brotli : List Nat → List Nat) (outDir : List Nat)
    (f : FileHeaderRepr) (rest : List FileHeaderRepr) (fs : FS) (x : FsEntry)
    (hex : fs (joinPath outDir f.name) = some x) :
    unpackRun brotli outDir (f :: rest) fs =
      ((unpackRun brotli outDir rest fs).1,
        FsEffect.warnExists (joinPath outDir f.name) ::
          (unpackRun brotli outDir rest fs).2) ∧
    (∀ p e, fs p = some e → (unpackRun brotli outDir (f :: rest) fs).1 p = some e) := by
  have hskip : unpackEntry brotli outDir fs f =
      (fs, [FsEffect.warnExists (joinPath outDir f.name)]) := by
    unfold unpackEntry
    rw [if_pos (by rw [hex]; rfl)]
  constructor
  · show (let step := unpackEntry brotli outDir fs f;
        let tail := unpackRun brotli outDir rest step.1;
        (tail.1, step.2 ++ tail.2)) = _
    rw [hskip]
    rfl
  · intro p e hp
    exact unpackRun_preserves brotli outDir (f :: rest) fs p e hp

theorem C9_witness :
    ((fun q : List Nat => if q = [111, 47, 97] then some (FsEntry.file [5])
        else Option.none) : FS) [111, 47, 97] = some (FsEntry.file [5]) ∧
    (unpackRun id [111]
        ([⟨420, DataCompression.none, 3, 3, [97], [1, 2, 3]⟩] : List FileHeaderRepr)
        (fun q : List Nat => if q = [111, 47, 97] then some (FsEntry.file [5])
          else Option.none) =
      ((unpackRun id [111] []
          (fun q : List Nat => if q = [111, 47, 97] then some (FsEntry.file [5])
            else Option.none)).1,
        FsEffect.warnExists [111, 47, 97] ::
          (unpackRun id [111] []
            (fun q : List Nat => if q = [111, 47, 97] then some (FsEntry.file [5])
              else Option.none)).2) ∧
     (∀ p e, ((fun q : List Nat => if q = [111, 47, 97] then some (FsEntry.file [5])
          else Option.none) : FS) p = some e →
        (unpackRun id [111]
          ([⟨420, DataCompression.none, 3, 3, [97], [1, 2, 3]⟩] : List FileHeaderRepr)
          (fun q : List Nat => if q = [111, 47, 97] then some (FsEntry.file [5])
            else Option.none)).1 p = some e)) :=
  ⟨by decide,
   C9_skip_existing id [111] ⟨420, DataCompression.none, 3, 3, [97], [1, 2, 3]⟩
     [] (fun q : List Nat => if q = [111, 47, 97] then some (FsEntry.file [5])
       else Option.none) (FsEntry.file [5]) (by decide)⟩

/-- C1 counterexample: unpacking one entry (mode 493, a three-byte payload)
into a fresh destination performs only directory creation, file creation
and a content write; the claimed permission-bit and timestamp restoration
effects are absent from the trace (the entry format stores no timestamps,
and the stored mode is never applied). -/
theorem C1_counterexample :
    (unpackEntry id [111] (fun _ => Option.none)
        ⟨493, DataCompression.none, 3, 3, [97], [1, 2, 3]⟩).2 =
      [FsEffect.createDirAll [111], FsEffect.createFile [111, 47, 97],
       FsEffect.writeData [111, 47, 97] [1, 2, 3]] ∧
    ¬ (FsEffect.setPermissions [111, 47, 97] 493 ∈
        (unpackEntry id [111] (fun _ => Option.none)
          ⟨493, DataCompression.none, 3, 3, [97], [1, 2, 3]⟩).2 ∧
       ∃ mt ac, FsEffect.setFileTimes [111, 47, 97] mt ac ∈
        (unpackEntry id [111] (fun _ => Option.none)
          ⟨493, DataCompression.none, 3, 3, [97], [1, 2, 3]⟩).2) := by
  have heff : (unpackEntry id [111] (fun _ => Option.none)
      ⟨493, DataCompression.none, 3, 3, [97], [1, 2, 3]⟩).2 =
      [FsEffect.createDirAll [111], FsEffect.createFile [111, 47, 97],
       FsEffect.writeData [111, 47, 97] [1, 2, 3]] := by decide
  refine ⟨heff, ?_⟩
  rintro ⟨hperm, _⟩
  rw [heff] at hperm
  simp at hperm

/-- C1 (amended): for a fresh destination, the unpack loop creates the file
(after creating a missing parent directory) and writes the decompressed
content selected by the entry's compression tag — and nothing else: it
never sets permission bits or timestamps, since the entry carries no
timestamps and its stored mode is ignored by `unpack`. -/
theorem C1_unpack_content_only (brotli : List Nat → List Nat) (outDir : List Nat)
    (fs : FS) (f : FileHeaderRepr)
    (hfresh : fs (joinPath outDir f.name) = Option.none) :
    (unpackEntry brotli outDir fs f).1 (joinPath outDir f.name) =
      some (FsEntry.file (entryContent brotli f)) ∧
    (unpackEntry brotli outDir fs f).2 =
      (if (fs (parentDir (joinPath outDir f.name))).isSome then ([] : List FsEffect)
       else [FsEffect.createDirAll (parentDir (joinPath outDir f.name))]) ++
      [FsEffect.createFile (joinPath outDir f.name),
       FsEffect.writeData (joinPath outDir f.name) (entryContent brotli f)] ∧
    (∀ e ∈ (unpackEntry brotli outDir fs f).2, e.isMetaRestore = false) := by
  by_cases hpar : (fs (parentDir (joinPath outDir f.name))).isSome = true
  · simp only [unpackEntry, hfresh, Option.isSome_none, Bool.false_eq_true,
      if_false, hpar, if_true]
    refine ⟨?_, by trivial, ?_⟩
    · unfold updateFS
      rw [if_pos rfl]
    · intro e he
      simp only [List.nil_append, List.mem_cons, List.not_mem_nil, or_false] at he
      rcases he with h | h <;> (subst h; rfl)
  · have hparn : (fs (parentDir (joinPath outDir f.name))).isSome = false := by
      cases hfs : fs (parentDir (joinPath outDir f.name)) with
      | none => rfl
      | some y => rw [hfs] at hpar; exact absurd rfl hpar
    simp only [unpackEntry, hfresh, Option.isSome_none, Bool.false_eq_true,
      if_false, hparn]
    refine ⟨?_, by trivial, ?_⟩
    · unfold updateFS
      rw [if_pos rfl]
    · intro e he
      simp only [List.cons_append, List.nil_append, List.mem_cons,
        List.not_mem_nil, or_false] at he
      rcases he with h | h | h <;> (subst h; rfl)

theorem C1_witness :
    ((fun _ : List Nat => (Option.none : Option FsEntry)) : FS)
        (joinPath [111] [97]) = Option.none ∧
    ((unpackEntry id [111] (fun _ => Option.none)
        ⟨493, DataCompression.none, 3, 3, [97], [1, 2, 3]⟩).1
          (joinPath [111] [97]) =
        some (FsEntry.file (entryContent id
          ⟨493, DataCompression.none, 3, 3, [97], [1, 2, 3]⟩)) ∧
     (unpackEntry id [111] (fun _ => Option.none)
        ⟨493, DataCompression.none, 3, 3, [97], [1, 2, 3]⟩).2 =
        (if (((fun _ : List Nat => (Option.none : Option FsEntry)) : FS)
            (parentDir (joinPath [111] [97]))).isSome then ([] : List FsEffect)
         else [FsEffect.createDirAll (parentDir (joinPath [111] [97]))]) ++
        [FsEffect.createFile (joinPath [111] [97]),
         FsEffect.writeData (joinPath [111] [97])
           (entryContent id ⟨493, DataCompression.none, 3, 3, [97], [1, 2, 3]⟩)] ∧
     (∀ e ∈ (unpackEntry id [111] (fun _ => Option.none)
        ⟨493, DataCompression.none, 3, 3, [97], [1, 2, 3]⟩).2,
          e.isMetaRestore = false)) :=
  ⟨rfl,
   C1_unpack_content_only id [111] (fun _ => Option.none)
     ⟨493, DataCompression.none, 3, 3, [97], [1, 2, 3]⟩ rfl⟩

/-- C4 counterexample: a plain file passed directly as a root path, whose
name begins with a dot, is NOT archived when dotfile inclusion is
disabled — the collection loop's root-level check (and the walk callback)
skips it, so no entry is collected for it. -/
theorem C4_counterexample :
    packCollectRoot id false ".secret" (FsNode.file ".secret") [] =
      ([] : List (String × String)) ∧
    packCollectRoot id false ".secret" (FsNode.file ".secret") [] ≠
      [(".secret", ".secret")] := by
  constructor
  · decide
  · decide

/-- C4 (amended): a plain file passed directly as a root path is archived
with its stripped name and canonical path unless its file name begins with
a dot while dotfile inclusion is disabled — the skip-hidden rule IS
applied to the root itself (once by the root-level check of `pack` and
again by the walk callback), not only to descendants. -/
theorem C4_root_file_rule (canon : String → String) (incl : Bool)
    (p nm : String) (acc : List (String × String)) :
    packCollectRoot canon incl p (FsNode.file nm) acc =
      if incl = false ∧ hiddenName p = true then acc
      else acc ++ [(dropPathHead (parentPath p) p, canon p)] := by
  cases incl <;> cases hh : hiddenName p <;>
    simp [packCollectRoot, walkNode, packCb, hh]

/-- C10: when `pack` is invoked with an explicit output path and zero input
paths, the output file is created (truncated to empty) by `File::create`
while the writer is built, before the missing-inputs check runs, so the
run reports the no-input error only after having already replaced the
output destination with an empty file. -/
theorem C10_output_truncated_before_input_check (p : String)
    (rest : List PackEffect) :
    packPrologue (some p) [] rest =
      [PackEffect.createOutput p, PackEffect.errorNoInputs] := rfl
